import Mathlib

/-!
Verification of the scalp-signal bot (`src/main.py`).

Shallow embedding conventions:
* Python floats are modelled as exact rationals (`ℚ`); `math.nan` padding
  entries of indicator series are modelled as `none` in `List (Option ℚ)`,
  so `math.isnan x` becomes `Option.isNone`.
* A kline (candle) is the tuple of fields the program reads from the
  exchange response: open time (ms), open, high, low, close.
* Network fetches (`get_klines`) are modelled by passing the fetched
  candle list as an argument.  Python's `if not kl:` treats both `None`
  (fetch failure) and the empty list identically, so a failed fetch is
  modelled by the empty list.
* `int(time.time())` is modelled by an explicit `now : ℤ` argument.
* Python dicts with `.get(key, 0)` / `setdefault(key, 0)` access are
  modelled as total functions with default value `0`.
-/

/- The Batteries library marks the `Rat` arithmetic operations
`@[irreducible]`, which blocks `decide` from evaluating concrete
rational computations; restore the default reducibility for them. -/
attribute [local semireducible] Rat.add Rat.mul Rat.inv Rat.sub Rat.ofScientific

/-- One kline as consumed by `to_ohlc` in `src/main.py`:
open time (integer ms), open, high, low, close. -/
structure Candle where
  ts : ℤ
  o : ℚ
  h : ℚ
  l : ℚ
  c : ℚ
  deriving DecidableEq, Repr

/-- Python's `min` over a (nonempty) list; the `[]` case is unreachable
where the program calls it (a `ValueError` in Python). -/
def listMin : List ℚ → ℚ
  | [] => 0
  | x :: xs => xs.foldl min x

/-- Python's `max` over a (nonempty) list. -/
def listMax : List ℚ → ℚ
  | [] => 0
  | x :: xs => xs.foldl max x

/-- The EMA recurrence loop `for v in values[period:]` of `ema`
(`src/main.py` lines 142-144): `prev = v*k + prev*(1-k)`, collecting each
new value. -/
def emaRec (k : ℚ) (prev : ℚ) : List ℚ → List ℚ
  | [] => []
  | v :: vs =>
      let p := v * k + prev * (1 - k)
      p :: emaRec k p vs

/-- `ema(values, period)` from `src/main.py` lines 133-147: returns `[]`
when there is insufficient history, otherwise seeds with the SMA of the
first `period` values and prepends `period - 1` NaN (`none`) entries so
the output is aligned with the input. -/
def ema (values : List ℚ) (period : ℕ) : List (Option ℚ) :=
  if values.length < period then []
  else
    let k : ℚ := 2 / ((period : ℚ) + 1)
    let sma : ℚ := (values.take period).sum / (period : ℚ)
    List.replicate (period - 1) none ++ (some sma :: (emaRec k sma (values.drop period)).map some)

/-- `rs_to_rsi` from `src/main.py` lines 163-164, fused with the
`avg_loss != 0` guard of lines 166 and 172: an infinite ratio yields
RSI `100 - 100/(1+inf) = 100`. -/
def rsOf (avgGain avgLoss : ℚ) : ℚ :=
  if avgLoss = 0 then 100 else 100 - 100 / (1 + avgGain / avgLoss)

/-- The Wilder smoothing loop `for i in range(period, len(gains))` of
`rsi` (`src/main.py` lines 169-173), consuming the remaining
(gain, loss) pairs in lockstep. -/
def wilderRec (period : ℕ) (avgGain avgLoss : ℚ) : List (ℚ × ℚ) → List ℚ
  | [] => []
  | (g, l) :: rest =>
      let ag := (avgGain * ((period : ℚ) - 1) + g) / (period : ℚ)
      let al := (avgLoss * ((period : ℚ) - 1) + l) / (period : ℚ)
      rsOf ag al :: wilderRec period ag al rest

/-- `rsi(values, period)` from `src/main.py` lines 150-176: returns `[]`
when `len(values) < period + 1`; otherwise seeds average gain/loss with
simple means of the first `period` per-step gains/losses and emits one
RSI value per remaining step, padded with `period` NaN (`none`) entries. -/
def rsi (values : List ℚ) (period : ℕ) : List (Option ℚ) :=
  if values.length < period + 1 then []
  else
    let diffs := List.zipWith (· - ·) values.tail values
    let gains := diffs.map (fun d => max d 0)
    let losses := diffs.map (fun d => max (-d) 0)
    let avgGain := (gains.take period).sum / (period : ℚ)
    let avgLoss := (losses.take period).sum / (period : ℚ)
    List.replicate period none ++
      (some (rsOf avgGain avgLoss) ::
        (wilderRec period avgGain avgLoss ((gains.drop period).zip (losses.drop period))).map some)

/-- Close prices of a candle list (the `c` component of `to_ohlc`,
`src/main.py` lines 179-185). -/
def closes (kl : List Candle) : List ℚ := kl.map (·.c)

/-- `trend_filter_1h` from `src/main.py` lines 191-211, with the fetched
1h klines passed in (`if not kl: return None` is the `[]` case).
Returns `some "LONG"` when EMA20 > EMA50 on the last candle,
`some "SHORT"` when EMA20 < EMA50, otherwise `none`. -/
def trend_filter_1h (kl : List Candle) : Option String :=
  if kl = [] then none
  else
    let c := closes kl
    let e20 := ema c 20
    let e50 := ema c 50
    if e20.length ≠ c.length ∨ e50.length ≠ c.length then none
    else
      let last := c.length - 1
      match e20.getD last none, e50.getD last none with
      | some a, some b =>
          if b < a then some "LONG"
          else if a < b then some "SHORT"
          else none
      | _, _ => none

/-- The dict returned by `make_setup` (`src/main.py` lines 263-277 and
290-304). -/
structure Setup where
  symbol : String
  tf : String
  dir : String
  trend_tf : String
  price : ℚ
  entry_zone : ℚ × ℚ
  sl : ℚ
  tp1 : ℚ
  tp2 : ℚ
  ts : ℤ
  rsi : ℚ
  ema20 : ℚ
  ema50 : ℚ
  deriving DecidableEq, Repr

/-- `make_setup(symbol)` from `src/main.py` lines 214-306, with the two
fetched kline lists (trend timeframe and entry timeframe) passed in as
arguments.  Decimal constants of the source are written as exact
rationals: `0.999 = 999/1000`, `1.001 = 1001/1000`, `0.018 = 18/1000`,
`0.002 = 2/1000`; `R_MULT_TP1 = 1`, `R_MULT_TP2 = 2`. -/
def make_setup (symbol : String) (trendKl entryKl : List Candle) : Option Setup :=
  match trend_filter_1h trendKl with
  | none => none
  | some trend =>
    if entryKl = [] then none
    else
      let ts := entryKl.map (·.ts)
      let h := entryKl.map (·.h)
      let l := entryKl.map (·.l)
      let c := closes entryKl
      let e20 := ema c 20
      let e50 := ema c 50
      let r := rsi c 14
      if e20 = [] ∨ e50 = [] ∨ r = [] then none
      else
        let i := c.length - 2
        let price := c.getD i 0
        match e20.getD i none, e50.getD i none, r.getD i none with
        | some e20i, some e50i, some ri =>
          let dist := |price - e50i| / price
          let lookback := 20
          let low_swing := if lookback ≤ i then listMin ((l.drop (i - lookback)).take lookback)
                           else listMin (l.take i)
          let high_swing := if lookback ≤ i then listMax ((h.drop (i - lookback)).take lookback)
                            else listMax (h.take i)
          let entry_low := min e20i e50i * (999/1000)
          let entry_high := max e20i e50i * (1001/1000)
          if trend = "LONG" then
            if ri < 50 then none
            else if (18/1000 : ℚ) < dist then none
            else
              let sl := low_swing * (999/1000)
              let risk := max (price - sl) (price * (2/1000))
              let tp1 := price + risk * 1
              let tp2 := price + risk * 2
              some ⟨symbol, "15m", "LONG", "1h", price, (entry_low, entry_high),
                    sl, tp1, tp2, ts.getD i 0, ri, e20i, e50i⟩
          else if trend = "SHORT" then
            if 50 < ri then none
            else if (18/1000 : ℚ) < dist then none
            else
              let sl := high_swing * (1001/1000)
              let risk := max (sl - price) (price * (2/1000))
              let tp1 := price - risk * 1
              let tp2 := price - risk * 2
              some ⟨symbol, "15m", "SHORT", "1h", price, (entry_low, entry_high),
                    sl, tp1, tp2, ts.getD i 0, ri, e20i, e50i⟩
          else none
        | _, _, _ => none

/-- The signal record appended by `mark_sent` (`src/main.py` lines
367-379) and consumed by `eval_signal_outcome`. -/
structure Signal where
  id : String
  symbol : String
  dir : String
  tf : String
  ts : ℤ
  price : ℚ
  sl : ℚ
  tp1 : ℚ
  tp2 : ℚ
  status : String
  resolved_ts : Option ℤ
  deriving DecidableEq, Repr

/-- `hit_tp` of the outcome scan (`src/main.py` lines 413-418): for
`"LONG"` the target is touched when `high >= tp1`, otherwise (the
`else` branch, i.e. `"SHORT"`) when `low <= tp1`. -/
def touch_tp (dirn : String) (tp1 : ℚ) (k : Candle) : Bool :=
  if dirn = "LONG" then decide (tp1 ≤ k.h) else decide (k.l ≤ tp1)

/-- `hit_sl` of the outcome scan (`src/main.py` lines 413-418): for
`"LONG"` the stop is touched when `low <= sl`, otherwise when
`high >= sl`. -/
def touch_sl (dirn : String) (sl : ℚ) (k : Candle) : Bool :=
  if dirn = "LONG" then decide (k.l ≤ sl) else decide (sl ≤ k.h)

/-- The candle loop of `eval_signal_outcome` (`src/main.py` lines
408-430): first candle touching TP and SL gives `"MIXED"`, only TP
gives `"HIT"`, only SL gives `"FAIL"`; if the list is exhausted the
result is `"OPEN"`. -/
def scanLoop (dirn : String) (sl tp1 : ℚ) : List Candle → String
  | [] => "OPEN"
  | k :: rest =>
      let ht := touch_tp dirn tp1 k
      let hs := touch_sl dirn sl k
      if ht && hs then "MIXED"
      else if ht then "HIT"
      else if hs then "FAIL"
      else scanLoop dirn sl tp1 rest

/-- The candle list actually scanned by `eval_signal_outcome`
(`src/main.py` lines 401 and 408): the candles whose open time is `>=`
the signal's open time, with the first of them dropped
(`candles[1:]`). -/
def evalScanList (sig : Signal) (kl : List Candle) : List Candle :=
  (kl.filter (fun k => decide (sig.ts ≤ k.ts))).drop 1

/-- `eval_signal_outcome(sig)` from `src/main.py` lines 385-430, with
the fetched kline window passed in (`if not kl` is the `[]` case).
The source also writes `sig["resolved_ts"]` on resolution; no claim
concerns that timestamp, so only the returned status is modelled. -/
def eval_signal_outcome (sig : Signal) (kl : List Candle) : String :=
  if kl = [] then sig.status
  else
    if (kl.filter (fun k => decide (sig.ts ≤ k.ts))).length < 2 then sig.status
    else scanLoop sig.dir sig.sl sig.tp1 (evalScanList sig kl)

/-- `COOLDOWN_SEC = 60 * 45` (`src/main.py` line 38). -/
def COOLDOWN_SEC : ℤ := 60 * 45

/-- `MAX_ALERTS_PER_DAY = 7` (`src/main.py` line 39). -/
def MAX_ALERTS_PER_DAY : ℕ := 7

/-- `today_key()` from `src/main.py` lines 339-340:
`datetime.now(LOCAL_TZ).date().isoformat()` with
`LOCAL_TZ = timezone(timedelta(hours=2))` (line 43, UTC+2).  For a unix
time `now` the calendar date in UTC+2 is epoch day
`(now + 2*3600) fdiv 86400`; epoch-day numbers are in bijection with
the ISO date strings the source uses as keys. -/
def today_key (now : ℤ) : ℤ := (now + 2 * 3600).fdiv 86400

/-- The persisted state of `load_state` (`src/main.py` lines 59-69):
`last_sent` maps keys to timestamps (absent key reads as `0` via
`.get(key, 0)`), `daily` maps day keys to counters (absent day reads as
`0` via `setdefault(d, {"count": 0})`), `signals` is the stats log. -/
structure BotState where
  last_sent : String → ℤ
  daily : ℤ → ℕ
  signals : List Signal

/-- The fresh state returned by `load_state` when no file exists
(`src/main.py` lines 64-69). -/
def state0 : BotState := ⟨fun _ => 0, fun _ => 0, []⟩

/-- The anti-spam key `f"{sig['symbol']}|{sig['dir']}|{sig['tf']}"`
(`src/main.py` lines 344 and 359). -/
def sigKey (sig : Setup) : String := sig.symbol ++ "|" ++ sig.dir ++ "|" ++ sig.tf

/-- `can_send(state, sig)` from `src/main.py` lines 343-355, with
`int(time.time())` passed as `now`. -/
def can_send (st : BotState) (sig : Setup) (now : ℤ) : Bool :=
  let key := sigKey sig
  let last := st.last_sent key
  if now - last < COOLDOWN_SEC then false
  else
    let d := today_key now
    if MAX_ALERTS_PER_DAY ≤ st.daily d then false
    else true

/-- The signal record literal appended by `mark_sent` (`src/main.py`
lines 367-379). -/
def mkSignal (sig : Setup) : Signal :=
  ⟨sig.symbol ++ ":" ++ sig.dir ++ ":" ++ toString sig.ts,
   sig.symbol, sig.dir, sig.tf, sig.ts, sig.price, sig.sl, sig.tp1, sig.tp2,
   "OPEN", none⟩

/-- `mark_sent(state, sig)` from `src/main.py` lines 358-379, with
`int(time.time())` passed as `now`: stores `now` under the key,
increments today's counter and appends the stats record. -/
def mark_sent (st : BotState) (sig : Setup) (now : ℤ) : BotState :=
  { last_sent := fun k => if k = sigKey sig then now else st.last_sent k,
    daily := fun d => if d = today_key now then st.daily d + 1 else st.daily d,
    signals := st.signals ++ [mkSignal sig] }

/-- One per-symbol step of the scanner loop body (`src/main.py` lines
519-523): `sig = make_setup(sym); if sig and can_send(state, sig):
tg_send(...); mark_sent(state, sig)`.  The returned boolean records
whether the notifier was invoked. -/
def scanStep (st : BotState) (now : ℤ) (sigo : Option Setup) : BotState × Bool :=
  match sigo with
  | none => (st, false)
  | some sig =>
      if can_send st sig now then (mark_sent st sig now, true) else (st, false)

/-- One observed step of an execution of the scanner loop: the state
before, the wall-clock time, the candidate setup produced by
`make_setup`, whether the alert was sent, and the state after. -/
structure TraceEntry where
  before : BotState
  now : ℤ
  sig : Option Setup
  sent : Bool
  after : BotState

/-- The trace of an execution of the scanner loop (`src/main.py` lines
516-528) over a list of (time, candidate setup) events. -/
def scanTrace (st : BotState) : List (ℤ × Option Setup) → List TraceEntry
  | [] => []
  | (now, sigo) :: rest =>
      let p := scanStep st now sigo
      ⟨st, now, sigo, p.2, p.1⟩ :: scanTrace p.1 rest

/-- Doji candle (open = high = low = close) used to build concrete
counterexample inputs; such a candle satisfies the data-model sanity
condition `high >= max(open, close) >= min(open, close) >= low`. -/
def mkC (t : ℤ) (v : ℚ) : Candle := ⟨t, v, v, v, v⟩

/-- Close prices of the concrete 15m entry history `entryCex`: flat at
97, a quick rally to 100.6, twenty flat candles at 100.6 (the swing
window), then a close back at 100 on the decision candle. -/
def entryCloseAt (j : ℕ) : ℚ :=
  if j < 25 then 97
  else if j = 25 then 98
  else if j = 26 then 99
  else if j = 27 then 100
  else if j ≤ 48 then 1006/10
  else 100

/-- Concrete 51-candle entry-timeframe history on which `make_setup`
emits a LONG setup whose swing-derived stop lies above the entry price:
the decision candle (index 49) closes at 100 while every candle in the
20-candle swing window has low 100.6, so `sl = 100.6 * 0.999 = 100.4994`. -/
def entryCex : List Candle := (List.range 51).map (fun j => mkC (Int.ofNat j) (entryCloseAt j))

/-- Concrete 50-candle 1h trend history with steadily rising closes
1, 2, ..., 50, for which `trend_filter_1h` returns `"LONG"`. -/
def trendCex : List Candle := (List.range 50).map (fun j => mkC (Int.ofNat j) ((j : ℚ) + 1))

/-- A default setup record, used only to extract the value of an
`Option Setup` known to be `some`. -/
def setupDefault : Setup := ⟨"", "", "", "", 0, (0, 0), 0, 0, 0, 0, 0, 0, 0⟩

/-- The setup that `make_setup` emits on `trendCex`/`entryCex`. -/
def cexSetup : Setup := (make_setup "BTCUSDT" trendCex entryCex).getD setupDefault

/-- A concrete setup used to exercise the ledger operations. -/
def sigA : Setup := ⟨"BTCUSDT", "15m", "LONG", "1h", 100, (99, 101), 95, 105, 110, 0, 55, 100, 99⟩

/-- The ledger state after seven alerts have been recorded at unix time
0 (just before UTC midnight in UTC+2): the daily cap for that local day
is exhausted. -/
def st7 : BotState :=
  mark_sent (mark_sent (mark_sent (mark_sent (mark_sent (mark_sent (mark_sent
    state0 sigA 0) sigA 0) sigA 0) sigA 0) sigA 0) sigA 0) sigA 0

/-- A signal record whose stored status is already `"HIT"`, fed to
`eval_signal_outcome` with a window too short to scan. -/
def sigC2 : Signal :=
  ⟨"BTCUSDT:LONG:1000", "BTCUSDT", "LONG", "15m", 1000, 100, 90, 110, 120, "HIT", none⟩

/-- A one-candle window whose single candle (open time 1060, after the
origin 1000) touches neither the stop 90 nor the target 110. -/
def klC2 : List Candle := [⟨1060, 100, 101, 99, 100⟩]

/-- An open LONG signal: origin open time 1000, stop 90, target 110. -/
def sigC3 : Signal :=
  ⟨"BTCUSDT:LONG:1000", "BTCUSDT", "LONG", "15m", 1000, 100, 90, 110, 120, "OPEN", none⟩

/-- A candle strictly after origin 1000 touching only the stop 90
(low 85 ≤ 90, high 95 < 110). -/
def kSkip : Candle := ⟨1060, 95, 95, 85, 90⟩

/-- A candle strictly after `kSkip` touching only the target 110
(high 115 ≥ 110, low 95 > 90). -/
def kHit : Candle := ⟨1120, 95, 115, 95, 112⟩

/-- A window that does NOT contain the originating candle: both candles
are strictly after the origin open time 1000. -/
def klC3 : List Candle := [kSkip, kHit]

/-- The same window preceded by the originating candle (open time
exactly 1000). -/
def klC3W : List Candle := [⟨1000, 100, 100, 100, 100⟩, kSkip, kHit]

/-! ### Helper lemmas about the ledger -/

/-- Characterization of `can_send`: it returns `true` exactly when the
cooldown has elapsed for the key and today's counter is below the cap. -/
theorem can_send_eq_true_iff (st : BotState) (sig : Setup) (now : ℤ) :
    can_send st sig now = true ↔
      (COOLDOWN_SEC ≤ now - st.last_sent (sigKey sig) ∧
       st.daily (today_key now) < MAX_ALERTS_PER_DAY) := by
  simp only [can_send]
  split_ifs with h1 h2 <;> simp <;> omega

/-- A recorded alert moves the key's last-sent timestamp forward: when
`can_send` allowed the alert, the newly stored time is not smaller than
any previously stored time, for every key. -/
theorem mark_sent_last_sent_mono (st : BotState) (sig : Setup) (now : ℤ)
    (h : can_send st sig now = true) (key : String) :
    st.last_sent key ≤ (mark_sent st sig now).last_sent key := by
  have h' := (can_send_eq_true_iff st sig now).mp h
  simp only [mark_sent]
  split_ifs with hk
  · subst hk
    have : (0 : ℤ) < COOLDOWN_SEC := by decide
    omega
  · exact le_refl _

/-! ### C4: keying of the daily counter -/

/-- C4, counterexample: the daily counter is not keyed by the UTC
calendar date.  Unix times 3000 and 80000 fall on the same UTC date
(epoch day 0), yet after seven alerts recorded at time 0 the counter
consulted at time 3000 reads 7 (cap reached, `can_send` refuses) while
the counter consulted at time 80000 — same UTC day — reads 0 and
`can_send` allows the alert: the counter is keyed by the UTC+2 date of
`LOCAL_TZ`, which rolls over at 22:00 UTC. -/
theorem C4_counterexample :
    (3000 : ℤ).fdiv 86400 = (80000 : ℤ).fdiv 86400 ∧
    today_key 3000 ≠ today_key 80000 ∧
    st7.daily (today_key 3000) = 7 ∧
    st7.daily (today_key 80000) = 0 ∧
    can_send st7 sigA 3000 = false ∧
    can_send st7 sigA 80000 = true := by
  decide

/-- C4, amended: the per-day alert counter used by `can_send` and
`mark_sent` is keyed by the current UTC+2 (`LOCAL_TZ`) calendar date,
so it resets exactly when the UTC+2 day rolls over: a `mark_sent` at
`now1` increments the counter that `can_send` consults at `now2`
exactly when the two instants share the same UTC+2 date. -/
theorem C4_local_day_counter (st : BotState) (sig : Setup) (now1 now2 : ℤ) :
    ((now1 + 2 * 3600).fdiv 86400 = (now2 + 2 * 3600).fdiv 86400 →
      (mark_sent st sig now1).daily (today_key now2) = st.daily (today_key now2) + 1) ∧
    ((now1 + 2 * 3600).fdiv 86400 ≠ (now2 + 2 * 3600).fdiv 86400 →
      (mark_sent st sig now1).daily (today_key now2) = st.daily (today_key now2)) := by
  constructor <;> intro h
  · have hk : today_key now2 = today_key now1 := by simp only [today_key]; omega
    simp [mark_sent, hk]
  · have hk : today_key now2 ≠ today_key now1 := by simp only [today_key]; omega
    simp [mark_sent, hk]

/-- C4, witness for the amended theorem at concrete inputs: times 0 and
3000 share the UTC+2 date, so a `mark_sent` at 0 increments the counter
read at 3000. -/
theorem C4_witness :
    ((0 : ℤ) + 2 * 3600).fdiv 86400 = ((3000 : ℤ) + 2 * 3600).fdiv 86400 ∧
    (mark_sent state0 sigA 0).daily (today_key 3000) = state0.daily (today_key 3000) + 1 :=
  ⟨by decide, (C4_local_day_counter state0 sigA 0 3000).1 (by decide)⟩

/-! ### C5: cooldown and daily-cap gating -/

/-- C5: `can_send` returns `true` iff the time since the key's last-sent
timestamp is at least `COOLDOWN_SEC` and today's counter is strictly
below `MAX_ALERTS_PER_DAY`; immediately after `mark_sent` for the same
key at the same `now` it returns `false`; and it returns `true` again
once `now` advances by at least the cooldown, provided the daily cap is
not reached. -/
theorem C5_cooldown_cap (st : BotState) (sig : Setup) (now : ℤ) :
    (can_send st sig now = true ↔
      (COOLDOWN_SEC ≤ now - st.last_sent (sigKey sig) ∧
       st.daily (today_key now) < MAX_ALERTS_PER_DAY)) ∧
    can_send (mark_sent st sig now) sig now = false ∧
    (∀ d : ℤ, COOLDOWN_SEC ≤ d →
      (mark_sent st sig now).daily (today_key (now + d)) < MAX_ALERTS_PER_DAY →
      can_send (mark_sent st sig now) sig (now + d) = true) := by
  refine ⟨can_send_eq_true_iff st sig now, ?_, ?_⟩
  · have hl : (mark_sent st sig now).last_sent (sigKey sig) = now := by simp [mark_sent]
    have hlt : now - now < COOLDOWN_SEC := by simp only [COOLDOWN_SEC]; omega
    simp only [can_send, hl]
    rw [if_pos hlt]
  · intro d hd hcap
    rw [can_send_eq_true_iff]
    have hl : (mark_sent st sig now).last_sent (sigKey sig) = now := by simp [mark_sent]
    rw [hl]
    exact ⟨by omega, hcap⟩

/-- C5, witness at concrete inputs: the fresh state, the setup `sigA`
and `now = 5000`; the re-allowed case is taken at `d = COOLDOWN_SEC`. -/
theorem C5_witness :
    (can_send state0 sigA 5000 = true ↔
      (COOLDOWN_SEC ≤ 5000 - state0.last_sent (sigKey sigA) ∧
       state0.daily (today_key 5000) < MAX_ALERTS_PER_DAY)) ∧
    can_send (mark_sent state0 sigA 5000) sigA 5000 = false ∧
    (COOLDOWN_SEC ≤ (2700 : ℤ) ∧
     (mark_sent state0 sigA 5000).daily (today_key (5000 + 2700)) < MAX_ALERTS_PER_DAY ∧
     can_send (mark_sent state0 sigA 5000) sigA (5000 + 2700) = true) :=
  ⟨(C5_cooldown_cap state0 sigA 5000).1,
   (C5_cooldown_cap state0 sigA 5000).2.1,
   by decide,
   by decide,
   (C5_cooldown_cap state0 sigA 5000).2.2 2700 (by decide) (by decide)⟩

/-! ### C6: scan-loop invariant -/

/-- One scan step never decreases any stored last-sent timestamp: an
update only happens when `can_send` certified that the cooldown (a
positive duration) elapsed since the stored time. -/
theorem scanStep_last_sent_mono (st : BotState) (now : ℤ) (sigo : Option Setup)
    (key : String) : st.last_sent key ≤ (scanStep st now sigo).1.last_sent key := by
  match sigo with
  | none => exact le_refl _
  | some sig =>
      simp only [scanStep]
      split_ifs with h
      · exact mark_sent_last_sent_mono st sig now h key
      · exact le_refl _

/-- The first entry of a nonempty scan trace starts at the initial
state. -/
theorem scanTrace_head_before (st : BotState) (events : List (ℤ × Option Setup)) :
    ∀ x ∈ (scanTrace st events).head?, x.before = st := by
  cases events with
  | nil => simp [scanTrace]
  | cons e rest => obtain ⟨now, sigo⟩ := e; simp [scanTrace]

/-- C6: along every execution of the scan loop with non-decreasing
wall-clock times, the trace is properly chained (each step starts from
the previous step's state), every step leaves every key's last-sent
timestamp non-decreasing, and an alert is sent only when `can_send`
reported that the cooldown elapsed and the daily cap was not exceeded —
in which case the new state is exactly `mark_sent` of the old. -/
theorem C6_scan_invariant (st : BotState) (events : List (ℤ × Option Setup))
    (htime : (events.map Prod.fst).Chain' (· ≤ ·)) :
    (scanTrace st events).Chain' (fun a b => a.after = b.before) ∧
    ∀ e ∈ scanTrace st events,
      (∀ key, e.before.last_sent key ≤ e.after.last_sent key) ∧
      (e.sent = true → ∃ sig, e.sig = some sig ∧ can_send e.before sig e.now = true ∧
        e.after = mark_sent e.before sig e.now) := by
  induction events generalizing st with
  | nil => exact ⟨List.chain'_nil, by simp [scanTrace]⟩
  | cons ev rest ih =>
    obtain ⟨now, sigo⟩ := ev
    have htime' : (rest.map Prod.fst).Chain' (· ≤ ·) := by
      simp only [List.map_cons] at htime
      exact htime.tail
    obtain ⟨ihchain, ihmem⟩ := ih (scanStep st now sigo).1 htime'
    constructor
    · rw [scanTrace]
      rw [List.chain'_cons']
      exact ⟨fun y hy => (scanTrace_head_before _ _ y hy).symm, ihchain⟩
    · intro e he
      rw [scanTrace, List.mem_cons] at he
      rcases he with rfl | he
      · refine ⟨scanStep_last_sent_mono st now sigo, ?_⟩
        intro hsent
        match hs : sigo with
        | none => simp [scanStep] at hsent
        | some sig =>
            simp only [scanStep] at hsent ⊢
            split_ifs at hsent with hcan
            · exact ⟨sig, rfl, hcan, by simp [scanStep, hcan]⟩
      · exact ihmem e he

/-- C6, witness: a single-event execution at time 3000 from the fresh
state; the entry's timestamps are non-decreasing for the alert key and
the alert was gated by `can_send`. -/
theorem C6_witness :
    (([( (3000 : ℤ), some sigA )].map Prod.fst).Chain' (· ≤ ·)) ∧
    state0.last_sent (sigKey sigA) ≤ (mark_sent state0 sigA 3000).last_sent (sigKey sigA) ∧
    can_send state0 sigA 3000 = true := by
  have hch : (([( (3000 : ℤ), some sigA )].map Prod.fst).Chain' (· ≤ ·)) := by simp
  have h := (C6_scan_invariant state0 [((3000 : ℤ), some sigA)] hch).2
  have he : (⟨state0, 3000, some sigA, true, mark_sent state0 sigA 3000⟩ : TraceEntry) ∈
      scanTrace state0 [((3000 : ℤ), some sigA)] := by
    show _ ∈ [(⟨state0, 3000, some sigA, true, mark_sent state0 sigA 3000⟩ : TraceEntry)]
    exact List.mem_singleton.mpr rfl
  obtain ⟨hmono, hgate⟩ := h _ he
  obtain ⟨sig, hsig, hcan, _⟩ := hgate rfl
  obtain rfl : sigA = sig := Option.some.inj hsig
  exact ⟨hch, hmono (sigKey sigA), hcan⟩

/-! ### C7: explicit unavailability on insufficient history -/

/-- C7: with insufficient history the indicators return the empty list
(`ema` when `len < period`, `rsi` when `len < period + 1`), and
`make_setup` returns `none` (no setup this cycle) whenever an entry
indicator comes back empty or the value at the decision index is the
NaN padding. -/
theorem C7_unavailable (values : List ℚ) (period : ℕ) (sym : String)
    (tK eK : List Candle) :
    (values.length < period → ema values period = []) ∧
    (values.length < period + 1 → rsi values period = []) ∧
    ((ema (closes eK) 20 = [] ∨ ema (closes eK) 50 = [] ∨ rsi (closes eK) 14 = []) →
      make_setup sym tK eK = none) ∧
    (((ema (closes eK) 20).getD ((closes eK).length - 2) none = none ∨
      (ema (closes eK) 50).getD ((closes eK).length - 2) none = none ∨
      (rsi (closes eK) 14).getD ((closes eK).length - 2) none = none) →
      make_setup sym tK eK = none) := by
  refine ⟨fun h => by simp [ema, h], fun h => by simp [rsi, h], ?_, ?_⟩
  · intro h
    unfold make_setup
    cases htf : trend_filter_1h tK with
    | none => rfl
    | some trend =>
        simp only []
        split_ifs <;> rfl
  · intro h
    unfold make_setup
    cases htf : trend_filter_1h tK with
    | none => rfl
    | some trend =>
        simp only []
        split_ifs <;> try rfl
        all_goals
          generalize hg1 : (ema (closes eK) 20).getD ((closes eK).length - 2) none = s1 at h ⊢
        all_goals
          generalize hg2 : (ema (closes eK) 50).getD ((closes eK).length - 2) none = s2 at h ⊢
        all_goals
          generalize hg3 : (rsi (closes eK) 14).getD ((closes eK).length - 2) none = s3 at h ⊢
        all_goals
          cases s1 <;> cases s2 <;> cases s3 <;>
            first
              | rfl
              | (rcases h with h | h | h <;> exact Option.noConfusion h)

/-- C7, witness: two closes are not enough for EMA(3) or RSI(2), and on
an empty entry history every indicator access is unavailable, so
`make_setup` yields no setup. -/
theorem C7_witness :
    ([(1 : ℚ), 2].length < 3 ∧ ema [(1 : ℚ), 2] 3 = []) ∧
    ([(1 : ℚ), 2].length < 2 + 1 ∧ rsi [(1 : ℚ), 2] 2 = []) ∧
    ((ema (closes []) 20 = [] ∨ ema (closes []) 50 = [] ∨ rsi (closes []) 14 = []) ∧
      make_setup "BTCUSDT" trendCex [] = none) ∧
    (((ema (closes []) 20).getD ((closes []).length - 2) none = none ∨
      (ema (closes []) 50).getD ((closes []).length - 2) none = none ∨
      (rsi (closes []) 14).getD ((closes []).length - 2) none = none) ∧
      make_setup "BTCUSDT" trendCex [] = none) :=
  ⟨⟨by decide, (C7_unavailable [1, 2] 3 "BTCUSDT" trendCex []).1 (by decide)⟩,
   ⟨by decide, (C7_unavailable [1, 2] 2 "BTCUSDT" trendCex []).2.1 (by decide)⟩,
   ⟨by decide, (C7_unavailable [1, 2] 2 "BTCUSDT" trendCex []).2.2.1 (by decide)⟩,
   ⟨by decide, (C7_unavailable [1, 2] 2 "BTCUSDT" trendCex []).2.2.2 (by decide)⟩⟩

/-! ### C8: EMA of a constant sequence -/

/-- The EMA recurrence is stationary on a constant input. -/
theorem emaRec_const (k c : ℚ) (m : ℕ) :
    emaRec k c (List.replicate m c) = List.replicate m c := by
  induction m with
  | zero => rfl
  | succ m ih =>
      simp only [List.replicate_succ, emaRec]
      have hc : c * k + c * (1 - k) = c := by ring
      rw [hc, ih]

/-- C8: on a constant input sequence of length `n ≥ period ≥ 1`, every
defined (non-padding) entry of the returned EMA series equals the
constant: the SMA seed of `period` copies of `c` is `c` and the
recurrence keeps it at `c`. -/
theorem C8_ema_const (c : ℚ) (n period : ℕ) (h1 : 1 ≤ period) (h2 : period ≤ n) :
    ema (List.replicate n c) period =
      List.replicate (period - 1) (none : Option ℚ) ++
        List.replicate (n - period + 1) (some c) := by
  have hlen : ¬ (List.replicate n c).length < period := by
    simp only [List.length_replicate]; omega
  simp only [ema, hlen, if_false]
  have htake : (List.replicate n c).take period = List.replicate period c := by
    rw [List.take_replicate]; congr 1; omega
  have hdrop : (List.replicate n c).drop period = List.replicate (n - period) c :=
    List.drop_replicate ..
  have hsma : ((List.replicate n c).take period).sum / (period : ℚ) = c := by
    rw [htake, List.sum_replicate, nsmul_eq_mul]
    have hper : (period : ℚ) ≠ 0 := Nat.cast_ne_zero.mpr (by omega)
    field_simp
  rw [hsma, hdrop, emaRec_const, List.map_replicate]
  have : n - period + 1 = (n - period) + 1 := rfl
  rw [this, ← List.replicate_succ]

/-- C8, witness: a constant sequence of three fives with period 2 gives
one padding entry followed by the constant value twice. -/
theorem C8_witness :
    1 ≤ 2 ∧ 2 ≤ 3 ∧
    ema (List.replicate 3 (5 : ℚ)) 2 =
      List.replicate 1 (none : Option ℚ) ++ List.replicate 2 (some 5) :=
  ⟨by decide, by decide, C8_ema_const 5 3 2 (by decide) (by decide)⟩

/-! ### C2 and C3: outcome evaluation -/

/-- The outcome scan loop is determined by the first candle that
touches either level. -/
theorem scanLoop_eq_find (dirn : String) (sl tp1 : ℚ) (l : List Candle) :
    scanLoop dirn sl tp1 l =
      match l.find? (fun k => touch_tp dirn tp1 k || touch_sl dirn sl k) with
      | none => "OPEN"
      | some k =>
          if touch_tp dirn tp1 k && touch_sl dirn sl k then "MIXED"
          else if touch_tp dirn tp1 k then "HIT"
          else "FAIL" := by
  induction l with
  | nil => rfl
  | cons k rest ih =>
      simp only [scanLoop, List.find?_cons]
      cases htp : touch_tp dirn tp1 k <;> cases hsl : touch_sl dirn sl k <;>
        simp [htp, hsl, ih]

/-- A list shorter than two elements loses everything when one element
is dropped. -/
theorem drop_one_of_length_lt_two {α : Type} (l : List α) (h : l.length < 2) :
    l.drop 1 = [] := by
  rw [List.drop_eq_nil_iff]
  omega

/-- C2, amended: for every signal whose stored status is `"OPEN"` (the
only status the program ever re-evaluates) and every candle window, the
result of `eval_signal_outcome` is determined by the first scanned
candle that touches either level: both levels give `"MIXED"` (never
`"HIT"`), only the target gives `"HIT"`, only the stop gives `"FAIL"`,
and if no scanned candle touches either level the result is `"OPEN"`. -/
theorem C2_first_touch (sig : Signal) (kl : List Candle) (hst : sig.status = "OPEN") :
    eval_signal_outcome sig kl =
      match (evalScanList sig kl).find?
          (fun k => touch_tp sig.dir sig.tp1 k || touch_sl sig.dir sig.sl k) with
      | none => "OPEN"
      | some k =>
          if touch_tp sig.dir sig.tp1 k && touch_sl sig.dir sig.sl k then "MIXED"
          else if touch_tp sig.dir sig.tp1 k then "HIT"
          else "FAIL" := by
  rw [← scanLoop_eq_find]
  unfold eval_signal_outcome
  split_ifs with h1 h2
  · subst h1
    rw [hst]
    rfl
  · rw [hst]
    have hnil : evalScanList sig kl = [] :=
      drop_one_of_length_lt_two _ h2
    rw [hnil]
    rfl
  · rfl

/-- C2, counterexample to the claim as stated: a signal whose stored
status is `"HIT"` evaluated on a one-candle window touching neither
level returns `"HIT"`, not `"OPEN"`: with fewer than two candles at or
after the origin, `eval_signal_outcome` returns the stored status. -/
theorem C2_counterexample :
    eval_signal_outcome sigC2 klC2 = "HIT" ∧
    klC2.filter (fun k => touch_tp sigC2.dir sigC2.tp1 k || touch_sl sigC2.dir sigC2.sl k)
      = [] ∧
    sigC2.status ≠ "OPEN" := by
  decide

/-- C2, witness: on the open signal `sigC3` and the window `klC3W`, the
first scanned candle is `kSkip`, which touches only the stop, so the
outcome is `"FAIL"`. -/
theorem C2_witness :
    sigC3.status = "OPEN" ∧ eval_signal_outcome sigC3 klC3W = "FAIL" :=
  ⟨by decide, (C2_first_touch sigC3 klC3W (by decide)).trans (by decide)⟩

/-- C3, amended: when the fetched window has strictly increasing open
times and contains the originating candle, the scanned list is exactly
the candles strictly after the origin, in order.  (When the originating
candle is missing from the window, the earliest candle after the origin
is dropped too — see the counterexample.) -/
theorem C3_scans_strictly_after (sig : Signal) (kl : List Candle)
    (hsorted : kl.Pairwise (fun a b => a.ts < b.ts))
    (horig : ∃ k ∈ kl, k.ts = sig.ts) :
    evalScanList sig kl = kl.filter (fun k => decide (sig.ts < k.ts)) := by
  unfold evalScanList
  induction kl with
  | nil => simp at horig
  | cons k rest ih =>
      have hpw := (List.pairwise_cons.mp hsorted).1
      have hrest := (List.pairwise_cons.mp hsorted).2
      rcases horig with ⟨k0, hk0mem, hk0ts⟩
      rcases List.mem_cons.mp hk0mem with rfl | hk0rest
      · -- the head is the originating candle
        have hkeep : decide (sig.ts ≤ k0.ts) = true := by
          simp [hk0ts]
        have hdroph : decide (sig.ts < k0.ts) = false := by
          simp [hk0ts]
        rw [List.filter_cons, hkeep, List.filter_cons, hdroph]
        simp only [List.drop_succ_cons, List.drop_zero]
        have hall : ∀ x ∈ rest, sig.ts < x.ts := fun x hx => hk0ts ▸ hpw x hx
        have h1 : rest.filter (fun x => decide (sig.ts ≤ x.ts)) = rest :=
          List.filter_eq_self.mpr (fun x hx => by simpa using le_of_lt (hall x hx))
        have h2 : rest.filter (fun x => decide (sig.ts < x.ts)) = rest :=
          List.filter_eq_self.mpr (fun x hx => by simpa using hall x hx)
        simp [h1, h2]
      · -- the originating candle is in the tail, so the head is older
        have hklt : k.ts < sig.ts := hk0ts ▸ hpw k0 hk0rest
        have hd1 : decide (sig.ts ≤ k.ts) = false := by simp; omega
        have hd2 : decide (sig.ts < k.ts) = false := by simp; omega
        rw [List.filter_cons, hd1, List.filter_cons, hd2]
        exact ih hrest ⟨k0, hk0rest, hk0ts⟩

/-- C3, counterexample to the claim as stated: in the window `klC3`
both candles lie strictly after the origin, yet the scan drops the
first of them (`kSkip`, which touches only the stop), so the first
candle strictly after the origin is skipped and the outcome comes from
`kHit` (`"HIT"`) instead of `kSkip` (`"FAIL"`). -/
theorem C3_counterexample :
    klC3.Pairwise (fun a b => a.ts < b.ts) ∧
    (∀ k ∈ klC3, sigC3.ts < k.ts) ∧
    klC3.filter (fun k => decide (sigC3.ts < k.ts)) = [kSkip, kHit] ∧
    evalScanList sigC3 klC3 = [kHit] ∧
    touch_sl sigC3.dir sigC3.sl kSkip = true ∧
    touch_tp sigC3.dir sigC3.tp1 kSkip = false ∧
    eval_signal_outcome sigC3 klC3 = "HIT" := by
  refine ⟨?_, ?_, ?_, ?_, ?_, ?_, ?_⟩ <;> decide

/-- C3, witness for the amended theorem: the window `klC3W` starts with
the originating candle (open time exactly 1000), so the scanned list is
exactly the two candles strictly after the origin. -/
theorem C3_witness :
    klC3W.Pairwise (fun a b => a.ts < b.ts) ∧
    (∃ k ∈ klC3W, k.ts = sigC3.ts) ∧
    evalScanList sigC3 klC3W = klC3W.filter (fun k => decide (sigC3.ts < k.ts)) :=
  ⟨by decide, by decide,
   C3_scans_strictly_after sigC3 klC3W (by decide) (by decide)⟩

/-! ### C1 and C10: prices of an emitted setup -/

/-- Inversion for `make_setup`: every emitted setup is a LONG setup
whose targets are the entry plus one and two times the floored risk
`max (price - sl) (price * 0.002)`, or a SHORT setup whose targets are
the entry minus one and two times `max (sl - price) (price * 0.002)`. -/
theorem make_setup_spec (sym : String) (tK eK : List Candle) (s : Setup)
    (h : make_setup sym tK eK = some s) :
    (s.dir = "LONG" ∧
      s.tp1 = s.price + max (s.price - s.sl) (s.price * (2/1000)) * 1 ∧
      s.tp2 = s.price + max (s.price - s.sl) (s.price * (2/1000)) * 2) ∨
    (s.dir = "SHORT" ∧
      s.tp1 = s.price - max (s.sl - s.price) (s.price * (2/1000)) * 1 ∧
      s.tp2 = s.price - max (s.sl - s.price) (s.price * (2/1000)) * 2) := by
  unfold make_setup at h
  split at h
  · exact Option.noConfusion h
  · simp only [] at h
    split_ifs at h
    all_goals
      split at h
    all_goals try exact Option.noConfusion h
    all_goals
      split_ifs at h
    all_goals
      obtain rfl := Option.some.inj h
      first
        | exact Or.inl ⟨rfl, rfl, rfl⟩
        | exact Or.inr ⟨rfl, rfl, rfl⟩

/-- C1, amended: for every emitted setup with positive entry price the
take-profits are on the correct side of the entry (LONG:
entry < TP1 < TP2; SHORT: TP2 < TP1 < entry), because the floored risk
is strictly positive; but the stop-loss is NOT constrained to the
correct side: `make_setup` contains no rejection of a swing-derived
stop lying at or beyond the entry price, and such setups are emitted
(see the counterexample). -/
theorem C1_tp_ordering (sym : String) (tK eK : List Candle) (s : Setup)
    (h : make_setup sym tK eK = some s) (hpos : 0 < s.price) :
    (s.dir = "LONG" → s.price < s.tp1 ∧ s.tp1 < s.tp2) ∧
    (s.dir = "SHORT" → s.tp2 < s.tp1 ∧ s.tp1 < s.price) := by
  have hrisk_pos : 0 < s.price * (2/1000) := by positivity
  rcases make_setup_spec sym tK eK s h with ⟨hd, h1, h2⟩ | ⟨hd, h1, h2⟩
  · constructor
    · intro _
      have hr := le_max_right (s.price - s.sl) (s.price * (2/1000))
      constructor <;> [rw [h1]; rw [h1, h2]] <;> nlinarith
    · intro hS
      rw [hd] at hS
      exact absurd hS (by decide)
  · constructor
    · intro hL
      rw [hd] at hL
      exact absurd hL (by decide)
    · intro _
      have hr := le_max_right (s.sl - s.price) (s.price * (2/1000))
      constructor <;> [rw [h1, h2]; rw [h1]] <;> nlinarith

set_option maxRecDepth 20000 in
set_option maxHeartbeats 1000000 in
/-- C1, counterexample to the claim as stated: on the histories
`trendCex`/`entryCex` the code emits a LONG setup whose stop-loss
`100.4994` lies strictly ABOVE the entry price `100` (the swing low of
the 20 preceding candles is above the decision close), so
`stop-loss < entry` fails and no rejection takes place. -/
theorem C1_counterexample :
    make_setup "BTCUSDT" trendCex entryCex = some cexSetup ∧
    cexSetup.dir = "LONG" ∧
    cexSetup.price < cexSetup.sl := by
  refine ⟨?_, ?_, ?_⟩ <;> decide

set_option maxRecDepth 20000 in
set_option maxHeartbeats 1000000 in
/-- C1, witness for the amended theorem, at the concrete emitted setup:
its entry price is positive and its take-profits are correctly
ordered. -/
theorem C1_witness :
    make_setup "BTCUSDT" trendCex entryCex = some cexSetup ∧
    0 < cexSetup.price ∧
    ((cexSetup.dir = "LONG" → cexSetup.price < cexSetup.tp1 ∧ cexSetup.tp1 < cexSetup.tp2) ∧
     (cexSetup.dir = "SHORT" → cexSetup.tp2 < cexSetup.tp1 ∧ cexSetup.tp1 < cexSetup.price)) :=
  ⟨by decide, by decide,
   C1_tp_ordering "BTCUSDT" trendCex entryCex cexSetup (by decide) (by decide)⟩

/-- C10, amended: for every emitted setup the risk used to derive the
targets is the SIGNED surplus floored at `0.002 * entry` —
`max (entry - stop, entry * 0.002)` for LONG and
`max (stop - entry, entry * 0.002)` for SHORT, not the absolute
difference `|entry - stop|` — so for a positive entry price TP1 lies at
least `0.2%` from the entry on the profit side (strictly above for
LONG, strictly below for SHORT) and TP2 lies exactly twice the risk
from the entry. -/
theorem C10_risk_floor (sym : String) (tK eK : List Candle) (s : Setup)
    (h : make_setup sym tK eK = some s) :
    (s.dir = "LONG" →
      s.tp1 - s.price = max (s.price - s.sl) (s.price * (2/1000)) ∧
      s.tp2 - s.price = 2 * (s.tp1 - s.price) ∧
      (0 < s.price → s.price * (2/1000) ≤ s.tp1 - s.price ∧ s.price < s.tp1)) ∧
    (s.dir = "SHORT" →
      s.price - s.tp1 = max (s.sl - s.price) (s.price * (2/1000)) ∧
      s.price - s.tp2 = 2 * (s.price - s.tp1) ∧
      (0 < s.price → s.price * (2/1000) ≤ s.price - s.tp1 ∧ s.tp1 < s.price)) := by
  rcases make_setup_spec sym tK eK s h with ⟨hd, h1, h2⟩ | ⟨hd, h1, h2⟩
  · refine ⟨fun _ => ?_, fun hS => absurd (hd ▸ hS) (by decide)⟩
    have hr := le_max_right (s.price - s.sl) (s.price * (2/1000))
    refine ⟨by rw [h1]; ring, by rw [h1, h2]; ring, fun hpos => ?_⟩
    have : 0 < s.price * (2/1000) := by positivity
    constructor <;> nlinarith
  · refine ⟨fun hL => absurd (hd ▸ hL) (by decide), fun _ => ?_⟩
    have hr := le_max_right (s.sl - s.price) (s.price * (2/1000))
    refine ⟨by rw [h1]; ring, by rw [h1, h2]; ring, fun hpos => ?_⟩
    have : 0 < s.price * (2/1000) := by positivity
    constructor <;> nlinarith

set_option maxRecDepth 20000 in
set_option maxHeartbeats 1000000 in
/-- C10, counterexample to the claim as stated: on the emitted setup
`cexSetup` the stop lies above the LONG entry, so the claimed risk
formula `max (|entry - stop|, entry * 0.002) = 0.4994` differs from the
risk actually used, `tp1 - entry = 0.2 = entry * 0.002`: the code
floors the SIGNED difference `entry - stop`, not its absolute value. -/
theorem C10_counterexample :
    make_setup "BTCUSDT" trendCex entryCex = some cexSetup ∧
    cexSetup.dir = "LONG" ∧
    cexSetup.tp1 - cexSetup.price ≠
      max |cexSetup.price - cexSetup.sl| (cexSetup.price * (2/1000)) := by
  refine ⟨?_, ?_, ?_⟩ <;> decide

set_option maxRecDepth 20000 in
set_option maxHeartbeats 1000000 in
/-- C10, witness for the amended theorem at the concrete emitted
setup. -/
theorem C10_witness :
    make_setup "BTCUSDT" trendCex entryCex = some cexSetup ∧
    ((cexSetup.dir = "LONG" →
      cexSetup.tp1 - cexSetup.price =
        max (cexSetup.price - cexSetup.sl) (cexSetup.price * (2/1000)) ∧
      cexSetup.tp2 - cexSetup.price = 2 * (cexSetup.tp1 - cexSetup.price) ∧
      (0 < cexSetup.price →
        cexSetup.price * (2/1000) ≤ cexSetup.tp1 - cexSetup.price ∧
        cexSetup.price < cexSetup.tp1)) ∧
     (cexSetup.dir = "SHORT" →
      cexSetup.price - cexSetup.tp1 =
        max (cexSetup.sl - cexSetup.price) (cexSetup.price * (2/1000)) ∧
      cexSetup.price - cexSetup.tp2 = 2 * (cexSetup.price - cexSetup.tp1) ∧
      (0 < cexSetup.price →
        cexSetup.price * (2/1000) ≤ cexSetup.price - cexSetup.tp1 ∧
        cexSetup.tp1 < cexSetup.price))) :=
  ⟨by decide, C10_risk_floor "BTCUSDT" trendCex entryCex cexSetup (by decide)⟩

/-! ### C9: the decision never reads the last (unclosed) candle -/

/-- `getD` on an append reads the left part while in range. -/
theorem getD_append_of_lt {α : Type} (l₁ l₂ : List α) (n : ℕ) (d : α)
    (hn : n < l₁.length) : (l₁ ++ l₂).getD n d = l₁.getD n d := by
  simp [List.getD_eq_getElem?_getD, List.getElem?_append_left hn]

/-- Appending one value to the input of the EMA recurrence appends one
value to its output. -/
theorem emaRec_append_last (k : ℚ) (v : ℚ) (l : List ℚ) :
    ∀ prev : ℚ, ∃ w, emaRec k prev (l ++ [v]) = emaRec k prev l ++ [w] := by
  induction l with
  | nil => exact fun prev => ⟨_, rfl⟩
  | cons x xs ih =>
      intro prev
      obtain ⟨w, hw⟩ := ih (x * k + prev * (1 - k))
      exact ⟨w, by simp only [List.cons_append, emaRec, List.append_eq, hw]⟩

/-- Length of the EMA recurrence output. -/
theorem emaRec_length (k : ℚ) (l : List ℚ) :
    ∀ prev : ℚ, (emaRec k prev l).length = l.length := by
  induction l with
  | nil => intro prev; rfl
  | cons x xs ih => intro prev; simp only [emaRec, List.length_cons, ih]

/-- Length of a nonempty EMA series equals the input length. -/
theorem ema_length (ys : List ℚ) (p : ℕ) (h1 : 1 ≤ p) (h2 : p ≤ ys.length) :
    (ema ys p).length = ys.length := by
  have hlt : ¬ ys.length < p := by omega
  simp only [ema, hlt, if_false, List.length_append, List.length_replicate,
    List.length_cons, List.length_map, emaRec_length, List.length_drop]
  omega

/-- Appending one candle close to a history long enough for the EMA
appends exactly one defined value to the EMA series. -/
theorem ema_append (ys : List ℚ) (v : ℚ) (p : ℕ) (hp : p ≤ ys.length) :
    ∃ w, ema (ys ++ [v]) p = ema ys p ++ [some w] := by
  have h1 : ¬ (ys ++ [v]).length < p := by simp; omega
  have h2 : ¬ ys.length < p := by omega
  have htake : (ys ++ [v]).take p = ys.take p := List.take_append_of_le_length hp
  have hdrop : (ys ++ [v]).drop p = ys.drop p ++ [v] := List.drop_append_of_le_length hp
  obtain ⟨w, hw⟩ := emaRec_append_last (2 / ((p : ℚ) + 1)) v (ys.drop p)
    ((ys.take p).sum / (p : ℚ))
  refine ⟨w, ?_⟩
  simp only [ema, h1, h2, if_false, htake, hdrop, hw]
  simp [List.map_append]

/-- When the appended close is exactly the `period`-th value, the EMA
series is the padding followed by a single defined value (the SMA seed,
which does read the appended value — but sits at the penultimate
index's successor, i.e. the last position). -/
theorem ema_exact (ys : List ℚ) (v : ℚ) (p : ℕ) (hp : ys.length + 1 = p) :
    ∃ w, ema (ys ++ [v]) p = List.replicate (p - 1) (none : Option ℚ) ++ [some w] := by
  have h1 : ¬ (ys ++ [v]).length < p := by simp; omega
  have hdrop : (ys ++ [v]).drop p = [] := by
    rw [List.drop_eq_nil_iff]
    simp; omega
  refine ⟨((ys ++ [v]).take p).sum / (p : ℚ), ?_⟩
  simp only [ema, h1, if_false, hdrop, emaRec, List.map_nil]


/-- Appending one value to a sequence appends one difference to the
consecutive-differences list. -/
theorem zipWith_sub_tail_append (v : ℚ) :
    ∀ (t : List ℚ) (y0 : ℚ), ∃ d,
      List.zipWith (· - ·) (t ++ [v]) ((y0 :: t) ++ [v]) =
        List.zipWith (· - ·) t (y0 :: t) ++ [d] := by
  intro t
  induction t with
  | nil => exact fun y0 => ⟨v - y0, rfl⟩
  | cons y1 t ih =>
      intro y0
      obtain ⟨d, hd⟩ := ih y1
      refine ⟨d, ?_⟩
      simp only [List.cons_append, List.zipWith_cons_cons] at hd ⊢
      rw [hd]

/-- Appending one (gain, loss) pair to the input of the Wilder
recursion appends one RSI value to its output. -/
theorem wilderRec_append_last (p : ℕ) (pr : ℚ × ℚ) (l : List (ℚ × ℚ)) :
    ∀ ag al : ℚ, ∃ w, wilderRec p ag al (l ++ [pr]) = wilderRec p ag al l ++ [w] := by
  induction l with
  | nil => exact fun ag al => ⟨_, rfl⟩
  | cons x xs ih =>
      intro ag al
      obtain ⟨x1, x2⟩ := x
      obtain ⟨w, hw⟩ := ih ((ag * ((p : ℚ) - 1) + x1) / (p : ℚ))
        ((al * ((p : ℚ) - 1) + x2) / (p : ℚ))
      exact ⟨w, by simp only [List.cons_append, wilderRec, List.append_eq, hw]⟩

/-- Length of the Wilder recursion output. -/
theorem wilderRec_length (p : ℕ) (l : List (ℚ × ℚ)) :
    ∀ ag al : ℚ, (wilderRec p ag al l).length = l.length := by
  induction l with
  | nil => intro ag al; rfl
  | cons x xs ih =>
      intro ag al
      obtain ⟨x1, x2⟩ := x
      simp only [wilderRec, List.length_cons, ih]

/-- Length of a nonempty RSI series equals the input length. -/
theorem rsi_length (ys : List ℚ) (p : ℕ) (hp : p + 1 ≤ ys.length) :
    (rsi ys p).length = ys.length := by
  have hlt : ¬ ys.length < p + 1 := by omega
  simp only [rsi, hlt, if_false, List.length_append, List.length_replicate,
    List.length_cons, List.length_map, wilderRec_length, List.length_zip,
    List.length_drop, List.length_zipWith, List.length_tail]
  omega

/-- Appending one close to a history long enough for the RSI appends
exactly one defined value to the RSI series. -/
theorem rsi_append (ys : List ℚ) (v : ℚ) (p : ℕ) (hp : p + 1 ≤ ys.length) :
    ∃ w, rsi (ys ++ [v]) p = rsi ys p ++ [some w] := by
  obtain ⟨y0, t, rfl⟩ := List.exists_cons_of_ne_nil
    (List.ne_nil_of_length_pos (by omega) : ys ≠ [])
  have hp' : p ≤ t.length := by
    simp only [List.length_cons] at hp; omega
  obtain ⟨d, hd⟩ := zipWith_sub_tail_append v t y0
  have h1 : ¬ ((y0 :: t) ++ [v]).length < p + 1 := by
    simp only [List.length_append, List.length_cons]; omega
  have h2 : ¬ (y0 :: t).length < p + 1 := by
    simp only [List.length_cons]; omega
  have htail : ((y0 :: t) ++ [v]).tail = t ++ [v] := rfl
  have htail2 : (y0 :: t).tail = t := rfl
  simp only [rsi, h1, h2, if_false, htail, htail2, hd, List.map_append]
  set G := List.map (fun d => max d 0) (List.zipWith (· - ·) t (y0 :: t)) with hG
  set L := List.map (fun d => max (-d) 0) (List.zipWith (· - ·) t (y0 :: t)) with hL
  have hlG : p ≤ G.length := by
    rw [hG]; simp only [List.length_map, List.length_zipWith, List.length_cons]; omega
  have hlL : p ≤ L.length := by
    rw [hL]; simp only [List.length_map, List.length_zipWith, List.length_cons]; omega
  rw [List.take_append_of_le_length hlG, List.take_append_of_le_length hlL,
    List.drop_append_of_le_length hlG, List.drop_append_of_le_length hlL,
    List.zip_append (by rw [hG, hL]; simp)]
  obtain ⟨w, hw⟩ := wilderRec_append_last p (max d 0, max (-d) 0)
    ((G.drop p).zip (L.drop p)) ((G.take p).sum / (p : ℚ)) ((L.take p).sum / (p : ℚ))
  have hzip1 : (List.map (fun d => max d 0) [d]).zip (List.map (fun d => max (-d) 0) [d])
      = [(max d 0, max (-d) 0)] := rfl
  rw [hzip1, hw]
  exact ⟨w, by simp⟩

/-- `ema` explicitly signals unavailability on short inputs. -/
theorem ema_eq_nil (ys : List ℚ) (p : ℕ) (h : ys.length < p) : ema ys p = [] := by
  simp [ema, h]

set_option maxHeartbeats 1000000 in
/-- C9: `make_setup` bases its decision only on closed candles — the
evaluated price, indicator values, timestamp and swing windows are all
taken at index `len(candles) - 2` — so two entry histories of the same
length differing only in the final candle's open/high/low/close values
produce the identical result. -/
theorem C9_closed_candles_only (sym : String) (tK : List Candle) (xs : List Candle)
    (a b : Candle) (_hts : a.ts = b.ts) :
    make_setup sym tK (xs ++ [a]) = make_setup sym tK (xs ++ [b]) := by
  cases htf : trend_filter_1h tK with
  | none => unfold make_setup; rw [htf]
  | some trend =>
      have hne1 : xs ++ [a] ≠ [] := by simp
      have hne2 : xs ++ [b] ≠ [] := by simp
      simp only [make_setup, htf, if_neg hne1, if_neg hne2]
      simp only [closes, List.map_append, List.map_cons, List.map_nil,
        List.length_append, List.length_map, List.length_cons, List.length_nil]
      have hidx : xs.length + (0 + 1) - 2 = xs.length - 1 := by omega
      simp only [hidx]
      rcases Nat.lt_trichotomy (xs.length + 1) 50 with hlen | hlen | hlen
      · -- fewer than 50 closes: EMA50 is empty on both sides
        have ha : ema (List.map (fun x => x.c) xs ++ [a.c]) 50 = [] :=
          ema_eq_nil _ _ (by simp only [List.length_append, List.length_map,
            List.length_cons, List.length_nil]; omega)
        have hb : ema (List.map (fun x => x.c) xs ++ [b.c]) 50 = [] :=
          ema_eq_nil _ _ (by simp only [List.length_append, List.length_map,
            List.length_cons, List.length_nil]; omega)
        simp [ha, hb]
      · -- exactly 50 closes: the decision index falls into the NaN padding
        have hxs : xs.length = 49 := by omega
        obtain ⟨w20a, h20a⟩ := ema_append (List.map (fun x => x.c) xs) a.c 20
          (by simp only [List.length_map]; omega)
        obtain ⟨w20b, h20b⟩ := ema_append (List.map (fun x => x.c) xs) b.c 20
          (by simp only [List.length_map]; omega)
        obtain ⟨w50a, h50a⟩ := ema_exact (List.map (fun x => x.c) xs) a.c 50
          (by simp only [List.length_map]; omega)
        obtain ⟨w50b, h50b⟩ := ema_exact (List.map (fun x => x.c) xs) b.c 50
          (by simp only [List.length_map]; omega)
        obtain ⟨wra, hra⟩ := rsi_append (List.map (fun x => x.c) xs) a.c 14
          (by simp only [List.length_map]; omega)
        obtain ⟨wrb, hrb⟩ := rsi_append (List.map (fun x => x.c) xs) b.c 14
          (by simp only [List.length_map]; omega)
        have hca : ¬ (ema (List.map (fun x => x.c) xs ++ [a.c]) 20 = [] ∨
            ema (List.map (fun x => x.c) xs ++ [a.c]) 50 = [] ∨
            rsi (List.map (fun x => x.c) xs ++ [a.c]) 14 = []) := by
          rw [h20a, h50a, hra]; simp
        have hcb : ¬ (ema (List.map (fun x => x.c) xs ++ [b.c]) 20 = [] ∨
            ema (List.map (fun x => x.c) xs ++ [b.c]) 50 = [] ∨
            rsi (List.map (fun x => x.c) xs ++ [b.c]) 14 = []) := by
          rw [h20b, h50b, hrb]; simp
        rw [if_neg hca, if_neg hcb]
        have hg50a : (ema (List.map (fun x => x.c) xs ++ [a.c]) 50).getD (xs.length - 1) none
            = none := by
          rw [h50a, getD_append_of_lt _ _ _ _ (by simp only [List.length_replicate]; omega)]
          simp only [List.getD_eq_getElem?_getD, List.getElem?_replicate]
          simp [hxs]
        have hg50b : (ema (List.map (fun x => x.c) xs ++ [b.c]) 50).getD (xs.length - 1) none
            = none := by
          rw [h50b, getD_append_of_lt _ _ _ _ (by simp only [List.length_replicate]; omega)]
          simp only [List.getD_eq_getElem?_getD, List.getElem?_replicate]
          simp [hxs]
        rw [hg50a, hg50b]
        split <;>
          first
            | contradiction
            | (split <;> first | contradiction | rfl)
      · -- at least 51 closes: every accessed value ignores the last candle
        have hn : 50 ≤ xs.length := by omega
        obtain ⟨w20a, h20a⟩ := ema_append (List.map (fun x => x.c) xs) a.c 20
          (by simp only [List.length_map]; omega)
        obtain ⟨w20b, h20b⟩ := ema_append (List.map (fun x => x.c) xs) b.c 20
          (by simp only [List.length_map]; omega)
        obtain ⟨w50a, h50a⟩ := ema_append (List.map (fun x => x.c) xs) a.c 50
          (by simp only [List.length_map]; omega)
        obtain ⟨w50b, h50b⟩ := ema_append (List.map (fun x => x.c) xs) b.c 50
          (by simp only [List.length_map]; omega)
        obtain ⟨wra, hra⟩ := rsi_append (List.map (fun x => x.c) xs) a.c 14
          (by simp only [List.length_map]; omega)
        obtain ⟨wrb, hrb⟩ := rsi_append (List.map (fun x => x.c) xs) b.c 14
          (by simp only [List.length_map]; omega)
        have hca : ¬ (ema (List.map (fun x => x.c) xs ++ [a.c]) 20 = [] ∨
            ema (List.map (fun x => x.c) xs ++ [a.c]) 50 = [] ∨
            rsi (List.map (fun x => x.c) xs ++ [a.c]) 14 = []) := by
          rw [h20a, h50a, hra]; simp
        have hcb : ¬ (ema (List.map (fun x => x.c) xs ++ [b.c]) 20 = [] ∨
            ema (List.map (fun x => x.c) xs ++ [b.c]) 50 = [] ∨
            rsi (List.map (fun x => x.c) xs ++ [b.c]) 14 = []) := by
          rw [h20b, h50b, hrb]; simp
        rw [if_neg hca, if_neg hcb]
        have e20len : (ema (List.map (fun x => x.c) xs) 20).length = xs.length := by
          rw [ema_length _ _ (by omega) (by simp only [List.length_map]; omega)]
          simp only [List.length_map]
        have e50len : (ema (List.map (fun x => x.c) xs) 50).length = xs.length := by
          rw [ema_length _ _ (by omega) (by simp only [List.length_map]; omega)]
          simp only [List.length_map]
        have rlen : (rsi (List.map (fun x => x.c) xs) 14).length = xs.length := by
          rw [rsi_length _ _ (by simp only [List.length_map]; omega)]
          simp only [List.length_map]
        have hg20a : (ema (List.map (fun x => x.c) xs ++ [a.c]) 20).getD (xs.length - 1) none
            = (ema (List.map (fun x => x.c) xs) 20).getD (xs.length - 1) none := by
          rw [h20a]; exact getD_append_of_lt _ _ _ _ (by rw [e20len]; omega)
        have hg20b : (ema (List.map (fun x => x.c) xs ++ [b.c]) 20).getD (xs.length - 1) none
            = (ema (List.map (fun x => x.c) xs) 20).getD (xs.length - 1) none := by
          rw [h20b]; exact getD_append_of_lt _ _ _ _ (by rw [e20len]; omega)
        have hg50a : (ema (List.map (fun x => x.c) xs ++ [a.c]) 50).getD (xs.length - 1) none
            = (ema (List.map (fun x => x.c) xs) 50).getD (xs.length - 1) none := by
          rw [h50a]; exact getD_append_of_lt _ _ _ _ (by rw [e50len]; omega)
        have hg50b : (ema (List.map (fun x => x.c) xs ++ [b.c]) 50).getD (xs.length - 1) none
            = (ema (List.map (fun x => x.c) xs) 50).getD (xs.length - 1) none := by
          rw [h50b]; exact getD_append_of_lt _ _ _ _ (by rw [e50len]; omega)
        have hgra : (rsi (List.map (fun x => x.c) xs ++ [a.c]) 14).getD (xs.length - 1) none
            = (rsi (List.map (fun x => x.c) xs) 14).getD (xs.length - 1) none := by
          rw [hra]; exact getD_append_of_lt _ _ _ _ (by rw [rlen]; omega)
        have hgrb : (rsi (List.map (fun x => x.c) xs ++ [b.c]) 14).getD (xs.length - 1) none
            = (rsi (List.map (fun x => x.c) xs) 14).getD (xs.length - 1) none := by
          rw [hrb]; exact getD_append_of_lt _ _ _ _ (by rw [rlen]; omega)
        have hpa : (List.map (fun x => x.c) xs ++ [a.c]).getD (xs.length - 1) 0
            = (List.map (fun x => x.c) xs).getD (xs.length - 1) 0 :=
          getD_append_of_lt _ _ _ _ (by simp only [List.length_map]; omega)
        have hpb : (List.map (fun x => x.c) xs ++ [b.c]).getD (xs.length - 1) 0
            = (List.map (fun x => x.c) xs).getD (xs.length - 1) 0 :=
          getD_append_of_lt _ _ _ _ (by simp only [List.length_map]; omega)
        have hta : (List.map (fun x => x.ts) xs ++ [a.ts]).getD (xs.length - 1) 0
            = (List.map (fun x => x.ts) xs).getD (xs.length - 1) 0 :=
          getD_append_of_lt _ _ _ _ (by simp only [List.length_map]; omega)
        have htb : (List.map (fun x => x.ts) xs ++ [b.ts]).getD (xs.length - 1) 0
            = (List.map (fun x => x.ts) xs).getD (xs.length - 1) 0 :=
          getD_append_of_lt _ _ _ _ (by simp only [List.length_map]; omega)
        have hsw : 20 ≤ xs.length - 1 := by omega
        have hdla : List.drop (xs.length - 1 - 20) (List.map (fun x => x.l) xs ++ [a.l])
            = List.drop (xs.length - 1 - 20) (List.map (fun x => x.l) xs) ++ [a.l] :=
          List.drop_append_of_le_length (by simp only [List.length_map]; omega)
        have hdlb : List.drop (xs.length - 1 - 20) (List.map (fun x => x.l) xs ++ [b.l])
            = List.drop (xs.length - 1 - 20) (List.map (fun x => x.l) xs) ++ [b.l] :=
          List.drop_append_of_le_length (by simp only [List.length_map]; omega)
        have hdha : List.drop (xs.length - 1 - 20) (List.map (fun x => x.h) xs ++ [a.h])
            = List.drop (xs.length - 1 - 20) (List.map (fun x => x.h) xs) ++ [a.h] :=
          List.drop_append_of_le_length (by simp only [List.length_map]; omega)
        have hdhb : List.drop (xs.length - 1 - 20) (List.map (fun x => x.h) xs ++ [b.h])
            = List.drop (xs.length - 1 - 20) (List.map (fun x => x.h) xs) ++ [b.h] :=
          List.drop_append_of_le_length (by simp only [List.length_map]; omega)
        have htla : List.take 20 (List.drop (xs.length - 1 - 20) (List.map (fun x => x.l) xs) ++ [a.l])
            = List.take 20 (List.drop (xs.length - 1 - 20) (List.map (fun x => x.l) xs)) :=
          List.take_append_of_le_length (by simp only [List.length_drop, List.length_map]; omega)
        have htlb : List.take 20 (List.drop (xs.length - 1 - 20) (List.map (fun x => x.l) xs) ++ [b.l])
            = List.take 20 (List.drop (xs.length - 1 - 20) (List.map (fun x => x.l) xs)) :=
          List.take_append_of_le_length (by simp only [List.length_drop, List.length_map]; omega)
        have htha : List.take 20 (List.drop (xs.length - 1 - 20) (List.map (fun x => x.h) xs) ++ [a.h])
            = List.take 20 (List.drop (xs.length - 1 - 20) (List.map (fun x => x.h) xs)) :=
          List.take_append_of_le_length (by simp only [List.length_drop, List.length_map]; omega)
        have hthb : List.take 20 (List.drop (xs.length - 1 - 20) (List.map (fun x => x.h) xs) ++ [b.h])
            = List.take 20 (List.drop (xs.length - 1 - 20) (List.map (fun x => x.h) xs)) :=
          List.take_append_of_le_length (by simp only [List.length_drop, List.length_map]; omega)
        simp only [hg20a, hg20b, hg50a, hg50b, hgra, hgrb, hpa, hpb, hta, htb,
          if_pos hsw, hdla, hdlb, hdha, hdhb, htla, htlb, htha, hthb]

/-- C9, witness: the 50-candle prefix of `entryCex` extended by two
different final candles (same open time, closes 100 vs 999) yields
identical `make_setup` results. -/
theorem C9_witness :
    (mkC 50 100).ts = (mkC 50 999).ts ∧
    make_setup "BTCUSDT" trendCex (entryCex.take 50 ++ [mkC 50 100]) =
      make_setup "BTCUSDT" trendCex (entryCex.take 50 ++ [mkC 50 999]) :=
  ⟨rfl, C9_closed_candles_only "BTCUSDT" trendCex (entryCex.take 50) (mkC 50 100)
    (mkC 50 999) rfl⟩
